import Mathlib

/-!
Verification of the orchestration core of `create-divi-extension`
(`packages/create-divi-extension/CreateDiviExtension.js`).

The JavaScript source is shallowly embedded: strings become `String`
(worked on as `List Char`), JS objects holding dependency maps become
insertion-ordered association lists, promise rejection versus a direct
`process.exit` call become distinct constructors of result types, and
the regular expressions appearing in the source are embedded as
executable character-list matchers that follow the JS backtracking
semantics of the concrete patterns involved.   The `semver` library is
not part of the repository; `semver.valid` and `semver.validRange` are
modelled from node-semver's published grammar (non-loose mode), scoped
to what the call sites can reach (hyphen ranges and the stray-`*`
tolerance are omitted: no input of the form `^...` produced by
`makeCaretRange` can exercise them).
-/

namespace CreateDiviExtension

/-! ## Character helpers -/

/-- Digit test, `0`..`9`. -/
def isDigitC (c : Char) : Bool := '0' ≤ c && c ≤ '9'

/-- ASCII letter test. -/
def isAlphaC (c : Char) : Bool := ('a' ≤ c && c ≤ 'z') || ('A' ≤ c && c ≤ 'Z')

/-- Characters allowed in semver prerelease/build identifiers: `[0-9A-Za-z-]`. -/
def isIdChar (c : Char) : Bool := isDigitC c || isAlphaC c || c = '-'

/-- JS whitespace as matched by `\s` (the ASCII part plus NBSP). -/
def isWsC (c : Char) : Bool :=
  c = ' ' || c = '\t' || c = '\n' || c = '\r' || c = '\u000b' || c = '\u000c' || c = '\u00a0'

/-- JS line terminators (the characters `.` does not match, and after which a
multiline `^` anchor matches). -/
def isLineTerm (c : Char) : Bool :=
  c = '\n' || c = '\r' || c = '\u2028' || c = '\u2029'

/-- What the JS regex `.` matches: any character except a line terminator. -/
def jsDot (c : Char) : Bool := !isLineTerm c

/-- First-list-is-a-prefix test on character lists. -/
def isPrefixOfL : List Char → List Char → Bool
  | [], _ => true
  | _ :: _, [] => false
  | a :: as, b :: bs => a == b && isPrefixOfL as bs

/-- `file.indexOf(pat) === 0`, i.e. JS `startsWith`. -/
def jsStartsWith (s pat : String) : Bool := isPrefixOfL pat.data s.data

/-- `s.indexOf(pat) > -1`, i.e. substring containment. -/
def containsSub (pat : List Char) : List Char → Bool
  | [] => isPrefixOfL pat []
  | c :: rest => isPrefixOfL pat (c :: rest) || containsSub pat rest

/-- Character membership in a character list. -/
def hasCharL (c : Char) : List Char → Bool
  | [] => false
  | b :: bs => c == b || hasCharL c bs

/-- Longest prefix of characters satisfying `p` (used for greedy character runs). -/
def takeRun (p : Char → Bool) : List Char → List Char
  | [] => []
  | c :: rest => if p c then c :: takeRun p rest else []

/-- Drop a run of characters satisfying `p` from the front. -/
def dropRun (p : Char → Bool) : List Char → List Char
  | [] => []
  | c :: rest => if p c then dropRun p rest else c :: rest

/-- Remove a trailing run of whitespace (structurally, from the head). -/
def rdropWs : List Char → List Char
  | [] => []
  | c :: rest =>
    match rdropWs rest with
    | [] => if isWsC c then [] else [c]
    | r => c :: r

/-- JS `String.prototype.trim`. -/
def trimWs (cs : List Char) : List Char := rdropWs (dropRun isWsC cs)

/-- Last element of a character list. -/
def lastC : List Char → Option Char
  | [] => none
  | [c] => some c
  | _ :: c :: rest => lastC (c :: rest)

/-- Split at the first occurrence of `sep`; the second component is the
remainder after `sep` when `sep` occurs. -/
def splitAtFirst (sep : Char) : List Char → List Char × Option (List Char)
  | [] => ([], none)
  | c :: rest =>
    if c == sep then ([], some rest)
    else
      match splitAtFirst sep rest with
      | (pre, post) => (c :: pre, post)

/-- Split on every occurrence of `sep` (like JS `split`, keeping empty pieces). -/
def splitAll (sep : Char) : List Char → List (List Char)
  | [] => [[]]
  | c :: rest =>
    match splitAll sep rest with
    | [] => [[]]
    | piece :: more =>
      if c == sep then [] :: piece :: more
      else (c :: piece) :: more

/-! ## Connectivity probe (`checkIfOnline`, source lines 569-581)

If the package manager is not yarn the registry is never resolved and the
probe resolves `true`; with yarn, `dns.lookup('registry.yarnpkg.com', ...)`
is performed once and the probe resolves `err === null`.  The callback
always resolves (never rejects), which the embedding reflects by being a
total function.  The first component records the hosts looked up. -/

def checkIfOnline (useYarn : Bool) (lookupErr : Option String) : List String × Bool :=
  if !useYarn then ([], true)
  else (["registry.yarnpkg.com"], lookupErr.isNone)

/-! ## Directory safety check and `createApp` (source lines 122-179, 552-567) -/

/-- The whitelist from `isSafeToCreateProjectIn`. -/
def validFiles : List String :=
  [".DS_Store", "Thumbs.db", ".git", ".gitignore", ".idea", "README.md",
   "LICENSE", "web.iml", ".hg", ".hgignore", ".hgcheck"]

/-- `fs.readdirSync(root).every(file => validFiles.indexOf(file) >= 0)`. -/
def isSafeToCreateProjectIn (entries : List String) : Bool :=
  entries.all (fun file => validFiles.contains file)

/-- Insertion sort on strings (the embedding of `Array.prototype.sort` for
the small constant list in `checkAppName`). -/
def insertSorted (s : String) : List String → List String
  | [] => [s]
  | t :: rest => if s ≤ t then s :: t :: rest else t :: insertSorted s rest

/-- Sort a list of strings. -/
def sortStrings (l : List String) : List String := l.foldr insertSorted []

/-- `checkAppName`'s dependency lists (source lines 480-482). -/
def dependencyNames : List String := []

/-- The dev dependency names from `checkAppName`. -/
def devDependencyNames : List String := ["react", "react-dom", "react-scripts"]

/-- `dependencies.concat(devDependencies).sort()`. -/
def allDependencyNames : List String := sortStrings (dependencyNames ++ devDependencyNames)

/-- `checkAppName` passes (does not `process.exit(1)`) iff the npm validation
succeeded and the name collides with no required dependency name.  The
external `validate-npm-package-name` verdict is an input. -/
def checkAppName (validForNewPackages : Bool) (appName : String) : Bool :=
  validForNewPackages && !(allDependencyNames.contains appName)

/-- Observable outcome of `createApp` up to the hand-off to `run`. -/
structure CreateResult where
  exitCode : Option Nat
  manifestWritten : Bool
  runStarted : Bool
deriving DecidableEq, Repr

/-- `createApp` (source lines 122-179): validate the name, ensure the
directory, refuse a directory with conflicting files with exit status 1 —
all before `package.json` is written and before `run` (which installs)
starts.  Writing the manifest and calling `run` happen only after both
checks pass. -/
def createApp (validForNewPackages : Bool) (appName : String)
    (dirEntries : List String) : CreateResult :=
  if !(checkAppName validForNewPackages appName) then ⟨some 1, false, false⟩
  else if !(isSafeToCreateProjectIn dirEntries) then ⟨some 1, false, false⟩
  else ⟨none, true, true⟩

/-! ## Template prefix derivation (`finalize_extension_files`, source lines 583-597)

`appName.replace(/^divi/igm, '')`: with the `m` and `g` flags, one leading
case-insensitive `divi` is removed at the start of the string and after
every line terminator.  The scan proceeds character by character, tracking
whether the current position is a line start. -/

def stripDiviGo (atStart : Bool) : List Char → List Char
  | c1 :: c2 :: c3 :: c4 :: rest =>
    if atStart && (c1.toLower == 'd' && c2.toLower == 'i' &&
                   c3.toLower == 'v' && c4.toLower == 'i') then
      stripDiviGo false rest
    else
      c1 :: stripDiviGo (isLineTerm c1) (c2 :: c3 :: c4 :: rest)
  | [] => []
  | c :: rest => c :: stripDiviGo (isLineTerm c) rest

/-- `appName.replace(/^divi/igm, '')`. -/
def stripDivi (s : String) : String := ⟨stripDiviGo true s.data⟩

/-- Is this (possibly absent) character a separator, i.e. does
`['-','_'].includes(c)` hold?  An absent character is JS `undefined`, for
which `includes` is `false`. -/
def isSepOpt : Option Char → Bool
  | some c => c = '-' || c = '_'
  | none => false

/-- The `prefix`/`PREFIX`/`Prefix` triple computed by
`finalize_extension_files` from the app name (source lines 584-597):
strip `/^divi/igm`, pick `start` from a leading separator, take
`substring(start, 4)` lower-cased, drop one trailing separator, then the
upper-cased form and the `PREFIX.charAt(0) + prefix.slice(1)` form. -/
def finalizePrefixTriple (appName : String) : String × String × String :=
  let stripped := (stripDivi appName).data
  let start := if isSepOpt stripped.head? then 1 else 0
  let low := ((stripped.take 4).drop start).map Char.toLower
  let low := if isSepOpt (lastC low) then low.dropLast else low
  let up := low.map Char.toUpper
  let title := up.take 1 ++ low.drop 1
  (⟨low⟩, ⟨up⟩, ⟨title⟩)

/-- Single leading strip of a case-insensitive `divi`, as the spec words
describe it (`stripping a leading case-insensitive literal prefix word`). -/
def stripDiviOnce (s : String) : String :=
  match s.data with
  | c1 :: c2 :: c3 :: c4 :: rest =>
    if c1.toLower == 'd' && c2.toLower == 'i' && c3.toLower == 'v' && c4.toLower == 'i' then
      ⟨rest⟩
    else ⟨c1 :: c2 :: c3 :: c4 :: rest⟩
  | cs => ⟨cs⟩

/-- The derivation exactly as claim C3 words it: strip the leading word, trim
one leading separator if present, take at most the NEXT 4 characters,
lower-case, trim one trailing separator, and build `PREFIX`/`Prefix`. -/
def claimPrefixTriple (appName : String) : String × String × String :=
  let stripped := (stripDiviOnce appName).data
  let body := if isSepOpt stripped.head? then stripped.drop 1 else stripped
  let low := (body.take 4).map Char.toLower
  let low := if isSepOpt (lastC low) then low.dropLast else low
  let up := low.map Char.toUpper
  let title := up.take 1 ++ low.drop 1
  (⟨low⟩, ⟨up⟩, ⟨title⟩)

/-- The amended derivation: identical to `claimPrefixTriple` except that the
truncation keeps the characters up to position 4 of the separator-stripped
name — i.e. only the next 3 characters when a leading separator was
trimmed — matching `substring(start, 4)`. -/
def amendedPrefixTriple (appName : String) : String × String × String :=
  let stripped := (stripDiviOnce appName).data
  let (body, trimmed) :=
    if isSepOpt stripped.head? then (stripped.drop 1, 1) else (stripped, 0)
  let low := (body.take (4 - trimmed)).map Char.toLower
  let low := if isSepOpt (lastC low) then low.dropLast else low
  let up := low.map Char.toUpper
  let title := up.take 1 ++ low.drop 1
  (⟨low⟩, ⟨up⟩, ⟨title⟩)

/-! ## Manifests as JS objects

A `package.json` dependency block is a JS object: an insertion-ordered map
from keys to values, where reading an absent key and reading a key whose
stored value is `undefined` are indistinguishable (`typeof x ===
'undefined'`, and `JSON.stringify` drops both). -/

/-- A JS object with string keys and string-or-`undefined` values. -/
def JsObj : Type := List (String × Option String)

instance : DecidableEq JsObj := by unfold JsObj; infer_instance

/-- Property/index read: absent key and `undefined` value both given `none`. -/
def jsGet (o : JsObj) (k : String) : Option String :=
  match o with
  | [] => none
  | (k1, v) :: rest => if k1 == k then v else jsGet rest k

/-- Property write: update in place, or append preserving insertion order. -/
def jsSet (o : JsObj) (k : String) (v : Option String) : JsObj :=
  match o with
  | [] => [(k, v)]
  | (k1, v1) :: rest => if k1 == k then (k1, v) :: rest else (k1, v1) :: jsSet rest k v

/-- The `delete` operator. -/
def jsDel (o : JsObj) (k : String) : JsObj :=
  match o with
  | [] => []
  | (k1, v1) :: rest => if k1 == k then rest else (k1, v1) :: jsDel rest k

/-- The parts of the generated `package.json` that `fixDependencies` touches. -/
structure Manifest where
  dependencies : Option JsObj
  devDependencies : Option JsObj
deriving DecidableEq

instance : Repr JsObj := by unfold JsObj; infer_instance

/-! ## node-semver model

The `semver` package is an external dependency (not part of this
repository).  `semver.valid` and `semver.validRange` (non-loose mode) are
modelled from node-semver's grammar.  A range is `||`-separated comparator
sets; a comparator set is whitespace-separated comparators after the
`caret`/`tilde`/`comparator` whitespace trims; a comparator is an optional
operator (`<`, `>`, `<=`, `>=`, `=`, `^`, `~`, `~>`) followed by an
"xrange" version: `[v=]*` then 1-3 dot-separated identifiers (numeric with
no leading zero, or `x`/`X`/`*`), with prerelease/build parts allowed only
after all three.  Hyphen ranges and the lone-`*` stripping tolerance are
omitted; they are unreachable from the `^`-prefixed strings
`makeCaretRange` builds (an xrange never begins with `^`). -/

/-- Numeric identifier `0|[1-9]\d*`: digits with no leading zero. -/
def numericIdOk (s : List Char) : Bool :=
  match s with
  | [] => false
  | ['0'] => true
  | c :: rest => isDigitC c && c != '0' && rest.all isDigitC

/-- XRANGEIDENTIFIER: numeric identifier or `x`, `X`, `*`. -/
def xidOk (s : List Char) : Bool :=
  s == ['x'] || s == ['X'] || s == ['*'] || numericIdOk s

/-- Prerelease identifier: alphanumeric-and-hyphen, and purely numeric ones
must have no leading zero. -/
def preIdOk (s : List Char) : Bool :=
  !s.isEmpty && s.all isIdChar && (!(s.all isDigitC) || numericIdOk s)

/-- Build identifier: `[0-9A-Za-z-]+`. -/
def buildIdOk (s : List Char) : Bool := !s.isEmpty && s.all isIdChar

/-- XRANGEPLAIN: `[v=]*` then `id(.id(.id(-pre)?(+build)?)?)?`, with the
prerelease and build parts only legal after three identifiers. -/
def xrangeOk (cs : List Char) : Bool :=
  let cs := dropRun (fun c => c = 'v' || c = '=') cs
  let (core, build?) := splitAtFirst '+' cs
  let (main, pre?) := splitAtFirst '-' core
  let parts := splitAll '.' main
  let mainOk :=
    match parts with
    | [a] => xidOk a
    | [a, b] => xidOk a && xidOk b
    | [a, b, c] => xidOk a && xidOk b && xidOk c
    | _ => false
  let fullMain := parts.length == 3
  let preOk :=
    match pre? with
    | none => true
    | some p => fullMain && (splitAll '.' p).all preIdOk
  let buildOk :=
    match build? with
    | none => true
    | some b => fullMain && (splitAll '.' b).all buildIdOk
  mainOk && preOk && buildOk

/-- Strip one leading range operator from a comparator token. -/
def dropOp : List Char → List Char
  | '<' :: '=' :: rest => rest
  | '>' :: '=' :: rest => rest
  | '~' :: '>' :: rest => rest
  | '<' :: rest => rest
  | '>' :: rest => rest
  | '=' :: rest => rest
  | '^' :: rest => rest
  | '~' :: rest => rest
  | rest => rest

/-- One comparator token is valid iff, after its optional operator, the rest
is a well-formed xrange version. -/
def validComparator (t : List Char) : Bool := xrangeOk (dropOp t)

/-- Is this character a range operator character (the trims collapse the
whitespace that follows one)? -/
def isOpChar (c : Char) : Bool :=
  c = '^' || c = '~' || c = '<' || c = '>' || c = '='

/-- The `CARETTRIM`/`TILDETRIM`/`COMPARATORTRIM` whitespace collapsing:
whitespace immediately following an operator character is removed. -/
def opTrimGo (skipWs : Bool) : List Char → List Char
  | [] => []
  | c :: rest =>
    if skipWs && isWsC c then opTrimGo true rest
    else c :: opTrimGo (isOpChar c) rest

/-- Split a trimmed comparator set into whitespace-separated tokens. -/
def splitWsAux (acc : List Char) : List Char → List (List Char)
  | [] => if acc.isEmpty then [] else [acc.reverse]
  | c :: rest =>
    if isWsC c then
      if acc.isEmpty then splitWsAux [] rest
      else acc.reverse :: splitWsAux [] rest
    else splitWsAux (c :: acc) rest

/-- Tokenize one `||`-alternative of a range. -/
def chunkTokens (cs : List Char) : List (List Char) :=
  splitWsAux [] (opTrimGo false (trimWs cs))

/-- Split a range on `||` (surrounding whitespace is handled by the
per-chunk trim). -/
def splitOnBars : List Char → List (List Char)
  | '|' :: '|' :: rest => [] :: splitOnBars rest
  | [] => [[]]
  | c :: rest =>
    match splitOnBars rest with
    | [] => [[c]]
    | chunk :: more => (c :: chunk) :: more

/-- `semver.validRange(range) !== null`: every `||`-alternative must consist
solely of valid comparators (an empty alternative means `*` and is valid). -/
def validRange (s : String) : Bool :=
  (splitOnBars s.data).all (fun chunk => (chunkTokens chunk).all validComparator)

/-- Digits to a natural number. -/
def natOfDigits (s : List Char) : Nat :=
  s.foldl (fun n c => n * 10 + (c.toNat - '0'.toNat)) 0

/-- `Number.MAX_SAFE_INTEGER`; a main version component above it makes the
`SemVer` constructor throw, hence `semver.valid` return `null`. -/
def maxSafeInteger : Nat := 9007199254740991

/-- A main version component: numeric, no leading zero, within safe range. -/
def mainNumOk (s : List Char) : Bool :=
  numericIdOk s && natOfDigits s ≤ maxSafeInteger

/-- `semver.valid` (non-loose): `null` for non-strings and strings longer
than 256, else the parse of `v? major.minor.patch (-pre)? (+build)?`,
formatted back without the `v` and without the build part.  `none` is the
embedding of `null`; the input `Option` covers `undefined` arguments. -/
def semverValidStr (s : String) : Option String :=
    if s.data.length > 256 then none
    else
      let cs := match s.data with
        | 'v' :: rest => rest
        | cs => cs
      let (core, build?) := splitAtFirst '+' cs
      let (main, pre?) := splitAtFirst '-' core
      let mainOk :=
        match splitAll '.' main with
        | [a, b, c] => mainNumOk a && mainNumOk b && mainNumOk c
        | _ => false
      let preOk :=
        match pre? with
        | none => true
        | some p => (splitAll '.' p).all preIdOk
      let buildOk :=
        match build? with
        | none => true
        | some b => (splitAll '.' b).all buildIdOk
      if mainOk && preOk && buildOk then some ⟨core⟩ else none

/-- `semver.valid` on a possibly-`undefined` argument: non-strings give
`null`. -/
def semverValid (version : Option String) : Option String :=
  match version with
  | none => none
  | some s => semverValidStr s

/-! ## Manifest rewriting (`makeCaretRange`, `fixDependencies`, source lines 496-547)

Both functions report a missing entry by calling `process.exit(1)`
directly.  `process.exit` terminates the Node process immediately: no
exception is thrown, no promise is rejected, so control never reaches the
`.catch` rollback handler in `run`.  The embedding therefore returns
`Except Nat` where `.error c` means `process.exit(c)` was reached. -/

/-- The caret rewrite applied to one version string (source lines 504-511):
prefix `^`; if the result is not a valid range, keep the original. -/
def makeCaretRangeVal (version : String) : String :=
  let patchedVersion := "^" ++ version
  if validRange patchedVersion then patchedVersion else version

/-- `makeCaretRange(dependencies, name)` (source lines 496-514): exits with
status 1 when the entry is `undefined`, else stores the caret rewrite. -/
def makeCaretRange (dependencies : JsObj) (name : String) : Except Nat JsObj :=
  match jsGet dependencies name with
  | none => .error 1
  | some version => .ok (jsSet dependencies name (some (makeCaretRangeVal version)))

/-- `fixDependencies(packageName)` (source lines 516-547): move the resolved
package, `react` and `react-dom` from `dependencies` to `devDependencies`,
caret-rewriting the latter two; exit status 1 when `dependencies` or its
`packageName` entry is missing, or `makeCaretRange` finds an entry absent. -/
def fixDependencies (packageName : String) (pj : Manifest) : Except Nat Manifest :=
  match pj.dependencies with
  | none => .error 1
  | some deps =>
    match jsGet deps packageName with
    | none => .error 1
    | some packageVersion =>
      let devDeps := pj.devDependencies.getD []
      let devDeps := jsSet devDeps packageName (some packageVersion)
      let deps := jsDel deps packageName
      let devDeps := jsSet devDeps "react" (jsGet deps "react")
      let devDeps := jsSet devDeps "react-dom" (jsGet deps "react-dom")
      let deps := jsDel deps "react"
      let deps := jsDel deps "react-dom"
      match makeCaretRange devDeps "react" with
      | .error c => .error c
      | .ok devDeps =>
        match makeCaretRange devDeps "react-dom" with
        | .error c => .error c
        | .ok devDeps => .ok ⟨some deps, some devDeps⟩

/-! ## Rollback controller (`run`'s catch handler, source lines 283-327) -/

/-- The fixed allow-list of generated artifacts (source lines 295-301). -/
def knownGeneratedFiles : List String :=
  ["package.json", "npm-debug.log", "yarn-error.log", "yarn-debug.log", "node_modules"]

/-- `fileToMatch.match(/.log/g)`: is there any character followed by `log`?
(`.` is the regex wildcard here, not a literal dot.) -/
def hasDotLog : List Char → Bool
  | c1 :: c2 :: c3 :: c4 :: rest =>
    (jsDot c1 && c2 == 'l' && c3 == 'o' && c4 == 'g') || hasDotLog (c2 :: c3 :: c4 :: rest)
  | _ => false

/-- The deletion test from source lines 307-310:
`(fileToMatch.match(/.log/g) && file.indexOf(fileToMatch) === 0) || file === fileToMatch`. -/
def fileMatchesGenerated (file fileToMatch : String) : Bool :=
  (hasDotLog fileToMatch.data && jsStartsWith file fileToMatch) || file == fileToMatch

/-- A directory entry is deleted iff some allow-list entry matches it. -/
def shouldDelete (file : String) : Bool :=
  knownGeneratedFiles.any (fileMatchesGenerated file)

/-- What the rollback pass did: which entries it deleted, and whether the
then-empty target directory was itself removed. -/
structure RollbackResult where
  deleted : List String
  dirRemoved : Bool
deriving DecidableEq, Repr

/-- The catch handler's cleanup (source lines 294-324): delete every entry
matched by the allow-list, re-read the directory, and remove the directory
itself exactly when nothing remains. -/
def rollbackCleanup (entries : List String) : RollbackResult :=
  let deleted := entries.filter shouldDelete
  let remaining := entries.filter (fun f => !shouldDelete f)
  ⟨deleted, remaining.isEmpty⟩

/-- Observable outcome of `run`'s promise chain.  `exitNoRollback` is a
direct `process.exit` from `checkNodeVersion`/`fixDependencies` (the catch
handler never runs); `rolledBack` is the catch handler's cleanup followed
by `process.exit(1)`. -/
inductive RunOutcome where
  | completed (m : Manifest)
  | exitNoRollback (code : Nat)
  | rolledBack (r : RollbackResult) (code : Nat)
deriving DecidableEq

/-- The `run` pipeline from the install step onward (source lines 229-327).
A non-zero install subprocess exit rejects the promise with `{command}`
(source lines 217-225), which the catch handler answers with the rollback
cleanup of the target directory and `process.exit(1)`.  When the install
succeeds, `checkNodeVersion` exits directly if the engine constraint is
unsatisfied, and `fixDependencies` exits directly on a missing manifest
entry: both bypass the catch handler. -/
def runModel (installExitCode : Nat) (nodeCompatible : Bool) (packageName : String)
    (manifest : Manifest) (dirEntries : List String) : RunOutcome :=
  if installExitCode != 0 then
    .rolledBack (rollbackCleanup dirEntries) 1
  else if !nodeCompatible then
    .exitNoRollback 1
  else
    match fixDependencies packageName manifest with
    | .error c => .exitNoRollback c
    | .ok m => .completed m

/-! ## Package reference resolver (`getInstallPackage`, `getPackageName`,
source lines 330-340 and 380-425) -/

/-- `getInstallPackage(version)` (source lines 330-340): a valid semver
appends `@` plus the NORMALIZED version to the default name; any other
truthy specifier passes through; absent or empty input gives the default. -/
def getInstallPackage (version : Option String) : String :=
  let packageToInstall := "react-scripts"
  match semverValid version with
  | some validSemver => packageToInstall ++ "@" ++ validSemver
  | none =>
    match version with
    | some v => if v != "" then v else packageToInstall
    | none => packageToInstall

/-- The `-\d+.+\.tgz$` alternative of the fallback-stem regex: a hyphen, at
least one digit, at least one more `.`-matchable character, then `.tgz` at
the very end. -/
def stemSuffixBranch (rest : List Char) : Bool :=
  match rest with
  | '-' :: d :: tail =>
    isDigitC d && decide (tail.length ≥ 5) &&
      isPrefixOfL ".tgz".data (tail.drop (tail.length - 4)) &&
      (tail.take (tail.length - 4)).all jsDot
  | _ => false

/-- The lazy group `(.+?)` of `(.+?)(?:-\d+.+)?\.tgz$`: grow the group one
character at a time (each must be `.`-matchable), preferring the
version-suffix alternative at each length, and return the first success. -/
def stemGroupGo (g : List Char) : List Char → Option (List Char)
  | [] => if stemSuffixBranch [] || [] == ".tgz".data then some g else none
  | c :: rest =>
    if stemSuffixBranch (c :: rest) || (c :: rest) == ".tgz".data then some g
    else if jsDot c then stemGroupGo (g ++ [c]) rest
    else none

/-- Match `(.+?)(?:-\d+.+)?\.tgz$` against a suffix, returning the group. -/
def stemTail : List Char → Option (List Char)
  | [] => none
  | c :: rest => if jsDot c then stemGroupGo [c] rest else none

/-- The fallback name extraction
`installPackage.match(/^.+\/(.+?)(?:-\d+.+)?\.tgz$/)` from the catch
handler at source lines 405-407.  The greedy `^.+\/` picks the rightmost
`/` (with at least one `.`-matchable character before it) whose remainder
matches; `none` is the embedding of a `null` match, on which the source's
`[1]` access throws a `TypeError`. -/
def fallbackStemL (cs : List Char) : Option (List Char) :=
  let ok := (List.range cs.length).filter fun i =>
    decide (1 ≤ i) && ((cs.take i).all jsDot) && (cs.drop i).take 1 == ['/'] &&
      (stemTail (cs.drop (i + 1))).isSome
  match ok.getLast? with
  | some i => stemTail (cs.drop (i + 1))
  | none => none

/-- String-level wrapper for the fallback stem. -/
def fallbackStem (s : String) : Option String := (fallbackStemL s.data).map (⟨·⟩)

/-- The `\.git(#.*)?$` suffix of the git regex. -/
def gitTailOk (rest : List Char) : Bool :=
  match rest with
  | '.' :: 'g' :: 'i' :: 't' :: t =>
    match t with
    | [] => true
    | '#' :: r => r.all jsDot
    | _ => false
  | _ => false

/-- Match `([^\/]+)\.git(#.*)?$` at the current position: the greedy group
is the longest slash-free nonempty prefix whose remainder matches. -/
def gitAt (cs : List Char) : Option (List Char) :=
  let run := takeRun (fun c => c != '/') cs
  let ok := ((List.range run.length).map (· + 1)).filter fun l => gitTailOk (cs.drop l)
  ok.getLast?.map (fun l => cs.take l)

/-- `installPackage.match(/([^\/]+)\.git(#.*)?$/)` (source line 417): the
regex is unanchored, so the leftmost start position that succeeds wins;
`none` embeds a `null` match, on which `[1]` throws. -/
def gitMatchL : List Char → Option (List Char)
  | [] => none
  | c :: rest =>
    match gitAt (c :: rest) with
    | some g => some g
    | none => gitMatchL rest

/-- String-level wrapper for the git display-name extraction. -/
def gitMatch (s : String) : Option String := (gitMatchL s.data).map (⟨·⟩)

/-- Environment for the `.tgz` branch: what reading `package.json` from the
unpacked archive yields.  `readFail` covers every failure of the fetch,
unpack or `require` steps (the promise chain's `.catch` at line 398). -/
inductive TarballRead where
  | readOk (declaredName : String)
  | readFail
deriving DecidableEq

/-- Outcome of `getPackageName`: either a resolved display name, or a
synchronous `TypeError` from indexing a `null` regex match, which leaves
`getPackageName`'s promise rejected (fatal for the run). -/
inductive ResolveOutcome where
  | resolvedName (n : String)
  | thrown
deriving DecidableEq, Repr

/-- `getPackageName(installPackage)` (source lines 380-425).  Branch order:
a specifier containing `.tgz` goes through archive extraction — on read
failure the filename-stem fallback, whose `null`-match index throws for
stems it cannot parse; a `git+` prefix uses the git regex, whose
`null`-match index likewise throws; an `@` at a position after 0 splits
the name before the version; otherwise the specifier is its own name. -/
def getPackageName (tarball : TarballRead) (installPackage : String) : ResolveOutcome :=
  if containsSub ".tgz".data installPackage.data then
    match tarball with
    | .readOk declaredName => .resolvedName declaredName
    | .readFail =>
      match fallbackStem installPackage with
      | some assumedProjectName => .resolvedName assumedProjectName
      | none => .thrown
  else if jsStartsWith installPackage "git+" then
    match gitMatch installPackage with
    | some repoName => .resolvedName repoName
    | none => .thrown
  else
    match installPackage.data with
    | [] => .resolvedName installPackage
    | c :: rest =>
      if c != '@' && hasCharL '@' rest then
        .resolvedName ⟨c :: takeRun (fun a => a != '@') rest⟩
      else .resolvedName installPackage

/-! ## Helper lemmas -/

theorem isPrefixOfL_refl (l : List Char) : isPrefixOfL l l = true := by
  induction l with
  | nil => rfl
  | cons c rest ih => simp [isPrefixOfL, ih]

theorem jsStartsWith_self (s : String) : jsStartsWith s s = true :=
  isPrefixOfL_refl s.data

theorem hasCharL_append (c : Char) (xs ys : List Char) :
    hasCharL c (xs ++ ys) = (hasCharL c xs || hasCharL c ys) := by
  induction xs with
  | nil => simp [hasCharL]
  | cons x rest ih => simp [hasCharL, ih, Bool.or_assoc]

theorem takeRun_append (p : Char → Bool) (xs : List Char) (y : Char) (ys : List Char)
    (hxs : ∀ x ∈ xs, p x = true) (hy : p y = false) :
    takeRun p (xs ++ y :: ys) = xs := by
  induction xs with
  | nil => simp [takeRun, hy]
  | cons x rest ih =>
    have hx : p x = true := hxs x (by simp)
    have hrest := ih (fun a ha => hxs a (by simp [ha]))
    simpa [takeRun, hx] using hrest

/-- The deletion predicate of the rollback pass, characterized: exactly the
two literal names and the three `.log` name prefixes. -/
theorem shouldDelete_iff (f : String) :
    shouldDelete f = true ↔
      (f = "package.json" ∨ f = "node_modules" ∨
       jsStartsWith f "npm-debug.log" = true ∨
       jsStartsWith f "yarn-error.log" = true ∨
       jsStartsWith f "yarn-debug.log" = true) := by
  have h1 : hasDotLog "package.json".data = false := by decide
  have h2 : hasDotLog "npm-debug.log".data = true := by decide
  have h3 : hasDotLog "yarn-error.log".data = true := by decide
  have h4 : hasDotLog "yarn-debug.log".data = true := by decide
  have h5 : hasDotLog "node_modules".data = false := by decide
  simp only [shouldDelete, knownGeneratedFiles, List.any_cons, List.any_nil,
    fileMatchesGenerated, h1, h2, h3, h4, h5, Bool.false_and, Bool.true_and,
    Bool.false_or, Bool.or_false, Bool.or_eq_true, beq_iff_eq]
  constructor
  · rintro (h | (h | h) | (h | h) | (h | h) | h)
    · exact Or.inl h
    · exact Or.inr (Or.inr (Or.inl h))
    · exact Or.inr (Or.inr (Or.inl (h ▸ jsStartsWith_self f)))
    · exact Or.inr (Or.inr (Or.inr (Or.inl h)))
    · exact Or.inr (Or.inr (Or.inr (Or.inl (h ▸ jsStartsWith_self f))))
    · exact Or.inr (Or.inr (Or.inr (Or.inr h)))
    · exact Or.inr (Or.inr (Or.inr (Or.inr (h ▸ jsStartsWith_self f))))
    · exact Or.inr (Or.inl h)
  · rintro (h | h | h | h | h)
    · exact Or.inl h
    · exact Or.inr (Or.inr (Or.inr (Or.inr h)))
    · exact Or.inr (Or.inl (Or.inl h))
    · exact Or.inr (Or.inr (Or.inl (Or.inl h)))
    · exact Or.inr (Or.inr (Or.inr (Or.inl (Or.inl h))))

theorem jsGet_jsSet_self (o : JsObj) (k : String) (v : Option String) :
    jsGet (jsSet o k v) k = v := by
  induction o with
  | nil => simp [jsSet, jsGet]
  | cons p rest ih =>
    obtain ⟨k1, v1⟩ := p
    by_cases h : k1 = k
    · simp [jsSet, jsGet, h]
    · have hb : (k1 == k) = false := by simp [h]
      simp [jsSet, jsGet, hb, ih]

theorem jsGet_jsSet_ne (o : JsObj) (k1 k2 : String) (v : Option String)
    (h : k1 ≠ k2) : jsGet (jsSet o k1 v) k2 = jsGet o k2 := by
  induction o with
  | nil => simp [jsSet, jsGet, h]
  | cons p rest ih =>
    obtain ⟨ka, va⟩ := p
    by_cases ha : ka = k1
    · have hb : (ka == k2) = false := by simp [ha, h]
      simp [jsSet, jsGet, ha, hb, h]
    · have hb : (ka == k1) = false := by simp [ha]
      simp [jsSet, jsGet, hb, ih]

theorem jsGet_jsDel_ne (o : JsObj) (k1 k2 : String) (h : k1 ≠ k2) :
    jsGet (jsDel o k1) k2 = jsGet o k2 := by
  induction o with
  | nil => simp [jsDel]
  | cons p rest ih =>
    obtain ⟨ka, va⟩ := p
    by_cases ha : ka = k1
    · have hb : (ka == k2) = false := by simp [ha, h]
      simp [jsDel, jsGet, ha, hb, h]
    · have hb : (ka == k1) = false := by simp [ha]
      simp [jsDel, jsGet, hb, ih]

/-! ## Claim theorems -/

/-- C8: the connectivity probe returns true without performing any name
resolution when the selected package manager is not yarn; when it is yarn
it performs exactly one name resolution of the registry host and returns
false exactly when the lookup fails; it is total (never raises) in both
cases. -/
theorem checkIfOnlineSpec (lookupErr : Option String) :
    checkIfOnline false lookupErr = ([], true) ∧
    checkIfOnline true lookupErr = (["registry.yarnpkg.com"], lookupErr.isNone) ∧
    ((checkIfOnline true lookupErr).2 = false ↔ lookupErr.isSome) := by
  cases lookupErr <;> simp [checkIfOnline]

/-- C9: for every target directory containing at least one entry outside the
fixed whitelist, `createApp` terminates with exit status 1 before writing
the `package.json` manifest and before `run` (which installs) starts; and
an empty directory always passes the safety check. -/
theorem createAppRejectsConflicts (validForNewPackages : Bool) (appName f : String)
    (entries : List String) (hf : f ∈ entries) (hout : validFiles.contains f = false) :
    createApp validForNewPackages appName entries = ⟨some 1, false, false⟩ ∧
    isSafeToCreateProjectIn entries = false ∧
    isSafeToCreateProjectIn [] = true := by
  have hsafe : isSafeToCreateProjectIn entries = false := by
    simp only [isSafeToCreateProjectIn]
    rw [List.all_eq_false]
    exact ⟨f, hf, by simpa using hout⟩
  refine ⟨?_, hsafe, by decide⟩
  cases hname : checkAppName validForNewPackages appName <;>
    simp [createApp, hname, hsafe]

/-- C9 witness: a directory containing `main.js` is rejected with exit
status 1, no manifest written, no install started. -/
theorem createAppRejectsConflicts_witness :
    ("main.js" ∈ ["main.js"] ∧ validFiles.contains "main.js" = false) ∧
    createApp true "my-app" ["main.js"] = ⟨some 1, false, false⟩ :=
  ⟨⟨by decide, by decide⟩,
    (createAppRejectsConflicts true "my-app" "main.js" ["main.js"]
      (by decide) (by decide)).1⟩

/-- C10: for every project name whose stripped form is empty (such as
`divi` itself), the prefix derivation is total and yields the empty string
for all three of `prefix`, `PREFIX` and `Prefix`. -/
theorem emptyStrippedPrefixTotal (name : String) (h : stripDivi name = "") :
    finalizePrefixTriple name = ("", "", "") := by
  unfold finalizePrefixTriple
  rw [h]
  rfl

/-- C10 witness: the name `divi` strips to nothing and yields three empty
strings. -/
theorem emptyStrippedPrefixTotal_witness :
    stripDivi "divi" = "" ∧ finalizePrefixTriple "divi" = ("", "", "") :=
  ⟨by decide, emptyStrippedPrefixTotal "divi" (by decide)⟩

/-- C1: on an install failure (subprocess exit non-zero) the rollback
controller deletes exactly the entries that equal `package.json` or
`node_modules` or begin with one of the three allow-listed `.log` names,
removes the target directory itself iff no other entry remains, and the
run terminates with exit status 1. -/
theorem rollbackDeletesAllowListedOnly (installExitCode : Nat) (nodeCompatible : Bool)
    (packageName : String) (manifest : Manifest) (entries : List String)
    (h : installExitCode ≠ 0) :
    runModel installExitCode nodeCompatible packageName manifest entries =
      .rolledBack (rollbackCleanup entries) 1 ∧
    (∀ f, f ∈ (rollbackCleanup entries).deleted ↔
      f ∈ entries ∧ (f = "package.json" ∨ f = "node_modules" ∨
        jsStartsWith f "npm-debug.log" = true ∨
        jsStartsWith f "yarn-error.log" = true ∨
        jsStartsWith f "yarn-debug.log" = true)) ∧
    ((rollbackCleanup entries).dirRemoved = true ↔
      ∀ f ∈ entries, f ∈ (rollbackCleanup entries).deleted) := by
  have hb : (installExitCode != 0) = true := by simpa [bne_iff_ne] using h
  refine ⟨by simp [runModel, hb], ?_, ?_⟩
  · intro f
    simp [rollbackCleanup, List.mem_filter, shouldDelete_iff]
  · simp only [rollbackCleanup, List.isEmpty_iff, List.filter_eq_nil_iff,
      List.mem_filter, Bool.not_eq_true', Bool.not_eq_false]
    constructor
    · intro hall f hf
      exact ⟨hf, hall f hf⟩
    · intro hall f hf
      exact (hall f hf).2

/-- C1 witness: with the install subprocess exiting 1 and the target
directory containing `package.json` plus a user file `src`, exactly
`package.json` is deleted and the directory is kept. -/
theorem rollbackDeletesAllowListedOnly_witness :
    (1 ≠ 0) ∧
    runModel 1 true "react-scripts" ⟨none, none⟩ ["package.json", "src"] =
      .rolledBack ⟨["package.json"], false⟩ 1 :=
  ⟨by decide,
    ((rollbackDeletesAllowListedOnly 1 true "react-scripts" ⟨none, none⟩
      ["package.json", "src"] (by decide)).1).trans (by decide)⟩

/-- C2 counterexample: with a successful install but a manifest whose
`dependencies` lack `react`, the run reaches `fixDependencies`'s
`process.exit(1)` directly: the outcome is `exitNoRollback`, i.e. the
rollback cleanup of the claim is not performed before termination. -/
theorem missingDependencyRollback_cex :
    runModel 0 true "react-scripts"
      ⟨some [("react-scripts", some "1.0.0"), ("react-dom", some "16.4.1")], none⟩
      ["package.json", "node_modules"] = .exitNoRollback 1 := by decide

/-- C2 (amended): for every manifest that, after installation, lacks a
required dependency entry (the resolved package, `react` or `react-dom`),
the run fails with the missing-dependency error and terminates directly
with exit status 1 via `process.exit`, WITHOUT performing the rollback
cleanup (the cleanup only answers promise rejections such as an install
failure, and `process.exit` bypasses it). -/
theorem missingDependencyExitsWithoutRollback (packageName : String) (pj : Manifest)
    (entries : List String)
    (h : pj.dependencies = none ∨
      ∃ deps, pj.dependencies = some deps ∧
        (jsGet deps packageName = none ∨ jsGet deps "react" = none ∨
         jsGet deps "react-dom" = none)) :
    runModel 0 true packageName pj entries = .exitNoRollback 1 := by
  have hfix : fixDependencies packageName pj = .error 1 := by
    rcases h with hnone | ⟨deps, hdeps, hmiss⟩
    · simp [fixDependencies, hnone]
    · rcases hpn : jsGet deps packageName with _ | pv
      · simp [fixDependencies, hdeps, hpn]
      · rcases hmiss with hm | hm | hm
        · rw [hpn] at hm; exact absurd hm (by simp)
        · -- `react` missing from dependencies
          have hne : packageName ≠ "react" := by
            intro hc
            rw [hc, hm] at hpn
            simp at hpn
          have hdel : jsGet (jsDel deps packageName) "react" = none := by
            rw [jsGet_jsDel_ne deps packageName "react" hne]; exact hm
          simp only [fixDependencies, hdeps, hpn]
          generalize hX : jsSet (jsSet (jsSet (pj.devDependencies.getD [])
            packageName (some pv)) "react" (jsGet (jsDel deps packageName) "react"))
            "react-dom" (jsGet (jsDel deps packageName) "react-dom") = X
          have hgr : jsGet X "react" = none := by
            rw [← hX, jsGet_jsSet_ne _ "react-dom" "react" _ (by decide),
              jsGet_jsSet_self, hdel]
          have hmc : makeCaretRange X "react" = .error 1 := by
            simp [makeCaretRange, hgr]
          rw [hmc]
        · -- `react-dom` missing from dependencies
          have hne : packageName ≠ "react-dom" := by
            intro hc
            rw [hc, hm] at hpn
            simp at hpn
          have hdel : jsGet (jsDel deps packageName) "react-dom" = none := by
            rw [jsGet_jsDel_ne deps packageName "react-dom" hne]; exact hm
          simp only [fixDependencies, hdeps, hpn]
          generalize hX : jsSet (jsSet (jsSet (pj.devDependencies.getD [])
            packageName (some pv)) "react" (jsGet (jsDel deps packageName) "react"))
            "react-dom" (jsGet (jsDel deps packageName) "react-dom") = X
          have hgrd : jsGet X "react-dom" = none := by
            rw [← hX, jsGet_jsSet_self]; exact hdel
          rcases hc1 : makeCaretRange X "react" with c | dd
          · have hc : c = 1 := by
              unfold makeCaretRange at hc1
              rcases hg : jsGet X "react" with _ | rv <;> rw [hg] at hc1 <;>
                simp at hc1
              omega
            simp [hc]
          · have hdd : jsGet dd "react-dom" = none := by
              unfold makeCaretRange at hc1
              rcases hg : jsGet X "react" with _ | rv <;> rw [hg] at hc1
              · simp at hc1
              · have heq : jsSet X "react" (some (makeCaretRangeVal rv)) = dd := by
                  simpa using hc1
                rw [← heq, jsGet_jsSet_ne _ "react" "react-dom" _ (by decide)]
                exact hgrd
            have hmc2 : makeCaretRange dd "react-dom" = .error 1 := by
              simp [makeCaretRange, hdd]
            simp [hmc2]
  simp [runModel, hfix]

/-- C2 witness (for the amended claim): a concrete manifest missing `react`
exits with status 1 and no rollback. -/
theorem missingDependencyExitsWithoutRollback_witness :
    runModel 0 true "react-scripts"
      ⟨some [("react-scripts", some "1.0.0"), ("react-dom", some "16.4.1")], none⟩
      ["package.json"] = .exitNoRollback 1 :=
  missingDependencyExitsWithoutRollback "react-scripts"
    ⟨some [("react-scripts", some "1.0.0"), ("react-dom", some "16.4.1")], none⟩
    ["package.json"]
    (Or.inr ⟨[("react-scripts", some "1.0.0"), ("react-dom", some "16.4.1")],
      rfl, Or.inr (Or.inl (by decide))⟩)

theorem stripDiviGo_false_cons (c : Char) (rest : List Char) :
    stripDiviGo false (c :: rest) = c :: stripDiviGo (isLineTerm c) rest := by
  rcases rest with _ | ⟨c2, _ | ⟨c3, _ | ⟨c4, r⟩⟩⟩ <;> simp [stripDiviGo]

theorem stripDiviGo_false_id (cs : List Char)
    (h : ∀ c ∈ cs, isLineTerm c = false) : stripDiviGo false cs = cs := by
  induction cs with
  | nil => rfl
  | cons c rest ih =>
    rw [stripDiviGo_false_cons, h c (by simp)]
    rw [ih (fun a ha => h a (by simp [ha]))]

/-- On names without line terminators, the multiline `/^divi/igm` strip
equals the single leading strip the spec describes. -/
theorem stripDivi_eq_once (name : String)
    (h : ∀ c ∈ name.data, isLineTerm c = false) :
    stripDivi name = stripDiviOnce name := by
  unfold stripDivi stripDiviOnce
  rcases hd : name.data with _ | ⟨c1, _ | ⟨c2, _ | ⟨c3, _ | ⟨c4, rest⟩⟩⟩⟩ <;>
    rw [hd] at h
  · rfl
  · simp [stripDiviGo, h c1 (by simp)]
  · simp [stripDiviGo, h c1 (by simp), h c2 (by simp)]
  · simp [stripDiviGo, h c1 (by simp), h c2 (by simp), h c3 (by simp)]
  · cases hb : (c1.toLower == 'd' && c2.toLower == 'i' &&
        c3.toLower == 'v' && c4.toLower == 'i')
    · rw [show stripDiviGo true (c1 :: c2 :: c3 :: c4 :: rest) =
          c1 :: stripDiviGo (isLineTerm c1) (c2 :: c3 :: c4 :: rest) from by
        simp [stripDiviGo, hb]]
      rw [h c1 (by simp),
        stripDiviGo_false_id _ (fun a ha => h a (by simp [ha]))]
      simp [hb]
    · rw [show stripDiviGo true (c1 :: c2 :: c3 :: c4 :: rest) =
          stripDiviGo false rest from by simp [stripDiviGo, hb]]
      rw [stripDiviGo_false_id _ (fun a ha => h a (by simp [ha]))]
      simp [hb]

/-- C3 counterexample: on the name `divi-food-extension` the derivation as
the claim words it (take at most the NEXT 4 characters after trimming the
separator) disagrees with the code, which takes `substring(start, 4)` —
only 3 further characters when a separator was trimmed.  The code yields
`foo`/`FOO`/`Foo`; the claim's procedure yields `food`/`FOOD`/`Food`. -/
theorem prefixDerivationClaim_cex :
    claimPrefixTriple "divi-food-extension" ≠ finalizePrefixTriple "divi-food-extension" ∧
    finalizePrefixTriple "divi-food-extension" = ("foo", "FOO", "Foo") ∧
    claimPrefixTriple "divi-food-extension" = ("food", "FOOD", "Food") :=
  ⟨by decide, by decide, by decide⟩

/-- C3 (amended): for every project directory name free of line
terminators, the derived `prefix` is obtained by stripping one leading
case-insensitive `divi`, trimming one leading `-`/`_` if present, keeping
the characters up to position 4 of the separator-stripped name (so at most
3 further characters when a separator was trimmed), lower-casing, and
trimming one trailing `-`/`_` if present; `PREFIX` is the upper-cased form
and `Prefix` is `PREFIX`'s first character plus `prefix`'s remaining
characters. -/
theorem prefixDerivationAmended (name : String)
    (h : ∀ c ∈ name.data, isLineTerm c = false) :
    finalizePrefixTriple name = amendedPrefixTriple name := by
  unfold finalizePrefixTriple amendedPrefixTriple
  rw [stripDivi_eq_once name h]
  rcases hd : (stripDiviOnce name).data with _ | ⟨c, rest⟩
  · rfl
  · by_cases hsep : isSepOpt (some c) = true
    · simp [hd, hsep, List.take_succ_cons]
    · simp [hd, hsep]

/-- C3 witness: the claim's own example `divi-foo-extension` yields
`foo`/`FOO`/`Foo` under both the code and the amended description. -/
theorem prefixDerivationAmended_witness :
    (∀ c ∈ "divi-foo-extension".data, isLineTerm c = false) ∧
    finalizePrefixTriple "divi-foo-extension" = ("foo", "FOO", "Foo") ∧
    amendedPrefixTriple "divi-foo-extension" = ("foo", "FOO", "Foo") :=
  ⟨by decide,
    (prefixDerivationAmended "divi-foo-extension" (by decide)).trans (by decide),
    by decide⟩

theorem splitOnBars_ne_nil (cs : List Char) : splitOnBars cs ≠ [] := by
  induction cs using splitOnBars.induct with
  | case1 rest ih => simp [splitOnBars]
  | case2 => simp [splitOnBars]
  | case3 c rest hne hnil ih => exact absurd hnil ih
  | case4 c rest hne chunk more hcons ih =>
    rw [splitOnBars.eq_def]
    split
    · simp
    · rename_i heq
      simp at heq
    · rename_i heq
      obtain ⟨h1, h2⟩ := List.cons.inj heq
      rw [← h2, hcons]
      simp

theorem splitOnBars_cons_ne (c : Char) (cs : List Char) (h : c ≠ '|') :
    splitOnBars (c :: cs) =
      match splitOnBars cs with
      | [] => [[c]]
      | chunk :: more => (c :: chunk) :: more := by
  rw [splitOnBars.eq_def]
  split
  · rename_i heq
    exact absurd (List.cons.inj heq).1 h
  · rename_i heq
    simp at heq
  · rename_i heq
    obtain ⟨h1, h2⟩ := List.cons.inj heq
    rw [← h1, ← h2]

theorem rdropWs_cons (c : Char) (cs : List Char) :
    rdropWs (c :: cs) =
      match rdropWs cs with
      | [] => if isWsC c then [] else [c]
      | r => c :: r := rfl

theorem splitAll_cons (sep c : Char) (rest : List Char) :
    splitAll sep (c :: rest) =
      match splitAll sep rest with
      | [] => [[]]
      | piece :: more =>
        if c == sep then [] :: piece :: more else (c :: piece) :: more := rfl

theorem splitAll_ne_nil (sep : Char) (cs : List Char) : splitAll sep cs ≠ [] := by
  induction cs with
  | nil => simp [splitAll]
  | cons c rest ih =>
    rcases h : splitAll sep rest with _ | ⟨piece, more⟩
    · exact absurd h ih
    · by_cases hc : (c == sep) = true <;> simp [splitAll, h, hc]

theorem splitOnBars_caret (cs : List Char) :
    ∃ t more, splitOnBars ('^' :: cs) = ('^' :: t) :: more := by
  rcases h : splitOnBars cs with _ | ⟨chunk, more⟩
  · exact absurd h (splitOnBars_ne_nil cs)
  · refine ⟨chunk, more, ?_⟩
    rw [splitOnBars_cons_ne '^' cs (by decide), h]

theorem splitOnBars_caret2 (cs : List Char) :
    ∃ t more, splitOnBars ('^' :: '^' :: cs) = ('^' :: '^' :: t) :: more := by
  obtain ⟨t1, more1, h1⟩ := splitOnBars_caret cs
  refine ⟨t1, more1, ?_⟩
  rw [splitOnBars_cons_ne '^' ('^' :: cs) (by decide), h1]

theorem rdropWs_cons_nonws (c : Char) (h : isWsC c = false) (cs : List Char) :
    ∃ r, rdropWs (c :: cs) = c :: r := by
  rcases hr : rdropWs cs with _ | ⟨a, r⟩
  · exact ⟨[], by simp [rdropWs, hr, h]⟩
  · exact ⟨a :: r, by simp [rdropWs, hr]⟩

theorem trimWs_caret2 (cs : List Char) :
    ∃ t, trimWs ('^' :: '^' :: cs) = '^' :: '^' :: t := by
  have hw : isWsC '^' = false := by decide
  obtain ⟨r1, hr1⟩ := rdropWs_cons_nonws '^' hw cs
  refine ⟨r1, ?_⟩
  show rdropWs (dropRun isWsC ('^' :: '^' :: cs)) = _
  rw [show dropRun isWsC ('^' :: '^' :: cs) = '^' :: '^' :: cs from rfl]
  rw [rdropWs_cons, hr1]

theorem opTrimGo_caret2 (t : List Char) :
    opTrimGo false ('^' :: '^' :: t) = '^' :: '^' :: opTrimGo true t := by
  have h1 : isOpChar '^' = true := by decide
  have h2 : isWsC '^' = false := by decide
  simp [opTrimGo, h1, h2]

theorem splitWsAux_acc_head (cs : List Char) :
    ∀ acc, acc ≠ [] → ∃ t ts, splitWsAux acc cs = (acc.reverse ++ t) :: ts := by
  induction cs with
  | nil =>
    intro acc hacc
    refine ⟨[], [], ?_⟩
    simp [splitWsAux, hacc]
  | cons c rest ih =>
    intro acc hacc
    by_cases hc : isWsC c = true
    · refine ⟨[], splitWsAux [] rest, ?_⟩
      simp [splitWsAux, hc, hacc]
    · obtain ⟨t, ts, ht⟩ := ih (c :: acc) (by simp)
      refine ⟨c :: t, ts, ?_⟩
      rw [show splitWsAux acc (c :: rest) = splitWsAux (c :: acc) rest from by
        simp [splitWsAux, hc], ht]
      simp

theorem chunkTokens_caret2 (cs : List Char) :
    ∃ t ts, chunkTokens ('^' :: '^' :: cs) = ('^' :: '^' :: t) :: ts := by
  obtain ⟨t1, ht1⟩ := trimWs_caret2 cs
  unfold chunkTokens
  rw [ht1, opTrimGo_caret2]
  have hw : isWsC '^' = false := by decide
  rw [show splitWsAux [] ('^' :: '^' :: opTrimGo true t1) =
      splitWsAux ['^', '^'] (opTrimGo true t1) from by simp [splitWsAux, hw]]
  obtain ⟨t, ts, ht⟩ := splitWsAux_acc_head (opTrimGo true t1) ['^', '^'] (by simp)
  exact ⟨t, ts, by rw [ht]; simp⟩

theorem xidOk_caret (p : List Char) : xidOk ('^' :: p) = false := by
  rcases p with _ | ⟨a, r⟩ <;> simp [xidOk, numericIdOk, isDigitC]

theorem xrangeOk_caret (t : List Char) : xrangeOk ('^' :: t) = false := by
  unfold xrangeOk
  rw [show dropRun (fun c => c = 'v' || c = '=') ('^' :: t) = '^' :: t from rfl]
  dsimp only
  rw [show splitAtFirst '+' ('^' :: t) =
      ('^' :: (splitAtFirst '+' t).1, (splitAtFirst '+' t).2) from rfl]
  dsimp only
  rw [show splitAtFirst '-' ('^' :: (splitAtFirst '+' t).1) =
      ('^' :: (splitAtFirst '-' (splitAtFirst '+' t).1).1,
       (splitAtFirst '-' (splitAtFirst '+' t).1).2) from rfl]
  dsimp only
  rcases hsp : splitAll '.' (splitAtFirst '-' (splitAtFirst '+' t).1).1 with _ | ⟨piece, more⟩
  · exact absurd hsp (splitAll_ne_nil _ _)
  · rw [splitAll_cons, hsp]
    rw [show (('^' : Char) == '.') = false from rfl]
    rcases more with _ | ⟨b, _ | ⟨c, _ | ⟨d, r⟩⟩⟩ <;>
      simp [xidOk_caret]

theorem validComparator_caret2 (t : List Char) :
    validComparator ('^' :: '^' :: t) = false := by
  unfold validComparator
  rw [show dropOp ('^' :: '^' :: t) = '^' :: t from rfl]
  exact xrangeOk_caret t

/-- No string beginning with two carets is a valid node-semver range: the
first comparator of its first alternative starts with `^^`, and after the
leading caret operator an xrange version cannot begin with `^`. -/
theorem validRange_hathat (s : String) (cs : List Char)
    (h : s.data = '^' :: '^' :: cs) : validRange s = false := by
  unfold validRange
  rw [h]
  obtain ⟨t2, more2, hb⟩ := splitOnBars_caret2 cs
  rw [hb]
  obtain ⟨u, us, hu⟩ := chunkTokens_caret2 t2
  simp [hu, validComparator_caret2]

/-- C4: the caret rewrite of the Manifest Rewriter is idempotent — applied
to a value it has already produced it leaves that value unchanged — and an
output can only begin with `^^` if the input already did (so the rewrite
itself never creates a `^^` range; in fact `^^`-strings are never valid
ranges, so such an input is always kept verbatim). -/
theorem makeCaretRangeIdempotent (v : String) :
    makeCaretRangeVal (makeCaretRangeVal v) = makeCaretRangeVal v ∧
    (jsStartsWith (makeCaretRangeVal v) "^^" = true → jsStartsWith v "^^" = true) := by
  have hdouble : validRange ("^" ++ ("^" ++ v)) = false := by
    apply validRange_hathat _ v.data
    simp [String.data_append]
  cases hv : validRange ("^" ++ v)
  · constructor
    · simp [makeCaretRangeVal, hv]
    · intro h
      simpa [makeCaretRangeVal, hv] using h
  · have hfv : makeCaretRangeVal v = "^" ++ v := by simp [makeCaretRangeVal, hv]
    constructor
    · rw [hfv]
      simp [makeCaretRangeVal, hdouble, hv]
    · intro h
      rw [hfv] at h
      have hvcaret : ∃ cs, v.data = '^' :: cs := by
        have hd : ("^" ++ v).data = '^' :: v.data := by simp [String.data_append]
        unfold jsStartsWith at h
        rw [hd] at h
        rcases hvd : v.data with _ | ⟨c, cs⟩
        · rw [hvd] at h
          simp [isPrefixOfL] at h
        · rw [hvd] at h
          simp only [isPrefixOfL, Bool.and_eq_true, beq_iff_eq] at h
          obtain ⟨-, h2, -⟩ := h
          exact ⟨cs, by rw [← h2]⟩
      obtain ⟨cs, hcs⟩ := hvcaret
      have : validRange ("^" ++ v) = false := by
        apply validRange_hathat _ cs
        simp [String.data_append, hcs]
      rw [this] at hv
      exact absurd hv (by simp)

/-- C4 witness: a concrete version is caret-prefixed once, and re-applying
the rewrite to the produced range changes nothing. -/
theorem makeCaretRangeIdempotent_witness :
    (makeCaretRangeVal (makeCaretRangeVal "16.4.1") = makeCaretRangeVal "16.4.1" ∧
      (jsStartsWith (makeCaretRangeVal "16.4.1") "^^" = true →
        jsStartsWith "16.4.1" "^^" = true)) ∧
    makeCaretRangeVal "16.4.1" = "^16.4.1" :=
  ⟨makeCaretRangeIdempotent "16.4.1", by decide⟩

theorem containsSub_tgz_cons (c : Char) (h : ('.' == c) = false) (cs : List Char) :
    containsSub ".tgz".data (c :: cs) = containsSub ".tgz".data cs := by
  show (isPrefixOfL ".tgz".data (c :: cs) || containsSub ".tgz".data cs) = _
  rw [show isPrefixOfL ".tgz".data (c :: cs) = (('.' == c) && isPrefixOfL "tgz".data cs)
    from rfl, h]
  simp

theorem containsSub_tgz_rsAt (v : List Char) :
    containsSub ".tgz".data ("react-scripts@".data ++ v) = containsSub ".tgz".data v := by
  show containsSub ".tgz".data
    ('r' :: 'e' :: 'a' :: 'c' :: 't' :: '-' :: 's' :: 'c' :: 'r' :: 'i' :: 'p' ::
     't' :: 's' :: '@' :: v) = _
  rw [containsSub_tgz_cons 'r' rfl, containsSub_tgz_cons 'e' rfl,
    containsSub_tgz_cons 'a' rfl, containsSub_tgz_cons 'c' rfl,
    containsSub_tgz_cons 't' rfl, containsSub_tgz_cons '-' rfl,
    containsSub_tgz_cons 's' rfl, containsSub_tgz_cons 'c' rfl,
    containsSub_tgz_cons 'r' rfl, containsSub_tgz_cons 'i' rfl,
    containsSub_tgz_cons 'p' rfl, containsSub_tgz_cons 't' rfl,
    containsSub_tgz_cons 's' rfl, containsSub_tgz_cons '@' rfl]

/-- C5 counterexample: `1.2.3-a.tgz` is a valid canonical semver (its
prerelease part is `a.tgz`), the install target is formed as the claim
says, but the Resolver then takes the `.tgz` archive branch, and on the
inevitable read failure the filename-stem fallback regex finds no `/`,
returns `null`, and indexing it throws — the display name is NOT
`react-scripts`. -/
theorem semverResolverClaim_cex :
    semverValid (some "1.2.3-a.tgz") = some "1.2.3-a.tgz" ∧
    getInstallPackage (some "1.2.3-a.tgz") = "react-scripts@1.2.3-a.tgz" ∧
    getPackageName .readFail "react-scripts@1.2.3-a.tgz" = .thrown :=
  ⟨by decide, by decide, by decide⟩

/-- C5 (amended): for every versionSpec `v` that is a valid canonical
semantic version (`semver.valid(v) = v`) and does not contain the
substring `.tgz`, the Resolver produces install target `react-scripts@v`
and display name `react-scripts`; and for an absent versionSpec both the
install target and the display name are the unscoped default
`react-scripts`. -/
theorem semverResolverAmended (v : String) (tarball : TarballRead)
    (h1 : semverValid (some v) = some v)
    (h2 : containsSub ".tgz".data v.data = false) :
    getInstallPackage (some v) = "react-scripts" ++ "@" ++ v ∧
    getPackageName tarball ("react-scripts" ++ "@" ++ v) = .resolvedName "react-scripts" ∧
    getInstallPackage none = "react-scripts" ∧
    getPackageName tarball "react-scripts" = .resolvedName "react-scripts" := by
  have hdata : ("react-scripts" ++ "@" ++ v).data = "react-scripts@".data ++ v.data := by
    simp [String.data_append]
  refine ⟨by simp [getInstallPackage, h1], ?_, rfl, rfl⟩
  have hc1 : containsSub ".tgz".data ("react-scripts" ++ "@" ++ v).data = false := by
    rw [hdata, containsSub_tgz_rsAt]
    exact h2
  have hc2 : jsStartsWith ("react-scripts" ++ "@" ++ v) "git+" = false := by
    unfold jsStartsWith
    rw [hdata]
    rfl
  have hshape : ("eact-scripts@".data ++ v.data) =
      ("eact-scripts".data ++ ('@' :: v.data)) := rfl
  have hchar : hasCharL '@' ("eact-scripts@".data ++ v.data) = true := by
    rw [hshape, hasCharL_append]
    simp [hasCharL]
  have htake : takeRun (fun a => a != '@') ("eact-scripts@".data ++ v.data) =
      "eact-scripts".data := by
    rw [hshape]
    exact takeRun_append _ _ '@' _ (by decide) (by decide)
  unfold getPackageName
  rw [hc1, hc2]
  simp only [Bool.false_eq_true, if_false]
  rw [show ("react-scripts" ++ "@" ++ v).data =
    'r' :: ("eact-scripts@".data ++ v.data) from hdata]
  simp only [hchar, htake]
  rfl

/-- C5 witness: a concrete canonical version `16.4.1`. -/
theorem semverResolverAmended_witness :
    (semverValid (some "16.4.1") = some "16.4.1" ∧
     containsSub ".tgz".data "16.4.1".data = false) ∧
    getInstallPackage (some "16.4.1") = "react-scripts@16.4.1" ∧
    getPackageName .readFail "react-scripts@16.4.1" = .resolvedName "react-scripts" :=
  ⟨⟨by decide, by decide⟩,
    ((semverResolverAmended "16.4.1" .readFail (by decide) (by decide)).1).trans
      (by decide),
    by
      rw [show ("react-scripts@16.4.1" : String) = "react-scripts" ++ "@" ++ "16.4.1"
        from by decide]
      exact (semverResolverAmended "16.4.1" .readFail (by decide) (by decide)).2.1⟩

/-- C6 counterexample: `foo.tgz` contains `.tgz`, but on a read failure the
fallback regex (which requires a `/` before the stem) returns `null` and
indexing it throws: the recovery path IS fatal for this specifier. -/
theorem tgzFallbackClaim_cex :
    containsSub ".tgz".data "foo.tgz".data = true ∧
    getPackageName .readFail "foo.tgz" = .thrown :=
  ⟨by decide, by decide⟩

/-- C6 (amended): for every specifier containing `.tgz` on which the
fallback-stem regex `^.+\/(.+?)(?:-\d+.+)?\.tgz$` matches, a failure to
read the declared name from the unpacked archive is recovered by using the
matched filename stem (trailing version suffix stripped) as the display
name; for specifiers the regex rejects, the recovery itself throws and the
failure is fatal. -/
theorem tgzFallbackAmended (installPackage stem : String)
    (h1 : containsSub ".tgz".data installPackage.data = true)
    (h2 : fallbackStem installPackage = some stem) :
    getPackageName .readFail installPackage = .resolvedName stem := by
  unfold getPackageName
  rw [h1, h2]
  simp

/-- C6 witness: the spec's example URL recovers the stem
`my-react-scripts`. -/
theorem tgzFallbackAmended_witness :
    (containsSub ".tgz".data "https://mysite.com/my-react-scripts-0.8.2.tgz".data = true ∧
     fallbackStem "https://mysite.com/my-react-scripts-0.8.2.tgz" = some "my-react-scripts") ∧
    getPackageName .readFail "https://mysite.com/my-react-scripts-0.8.2.tgz" =
      .resolvedName "my-react-scripts" :=
  ⟨⟨by decide, by decide⟩,
    tgzFallbackAmended "https://mysite.com/my-react-scripts-0.8.2.tgz" "my-react-scripts"
      (by decide) (by decide)⟩

/-- C7 counterexample: a `git+` specifier with no `.git` segment makes the
unanchored regex return `null`, and indexing it throws — the Resolver
yields no display name for it. -/
theorem gitResolverClaim_cex :
    jsStartsWith "git+https://example.com/repo" "git+" = true ∧
    getPackageName .readFail "git+https://example.com/repo" = .thrown :=
  ⟨by decide, by decide⟩

/-- C7 (amended): for every specifier beginning with `git+`, not containing
`.tgz`, and on which the regex `([^\/]+)\.git(#.*)?$` matches, the
Resolver returns the matched group — the longest slash-free run preceding
the final `.git` (a `#ref` suffix after `.git` is allowed) — as the
display name, and the full specifier is passed through unchanged as the
install target. -/
theorem gitResolverAmended (s n : String) (tarball : TarballRead)
    (h1 : jsStartsWith s "git+" = true)
    (h2 : containsSub ".tgz".data s.data = false)
    (h3 : gitMatch s = some n) :
    getPackageName tarball s = .resolvedName n ∧
    getInstallPackage (some s) = s := by
  obtain ⟨rest, hd⟩ : ∃ rest, s.data = 'g' :: 'i' :: 't' :: '+' :: rest := by
    unfold jsStartsWith at h1
    rcases hsd : s.data with _ | ⟨c1, _ | ⟨c2, _ | ⟨c3, _ | ⟨c4, r⟩⟩⟩⟩ <;>
      rw [hsd] at h1 <;> simp [isPrefixOfL] at h1
    obtain ⟨e1, e2, e3, e4⟩ := h1
    exact ⟨r, by rw [← e1, ← e2, ← e3, ← e4]⟩
  constructor
  · unfold getPackageName
    rw [h2, h1, h3]
    simp
  · have hsv : semverValid (some s) = none := by
      have hstep : semverValid (some s) = semverValidStr s := rfl
      rw [hstep]
      unfold semverValidStr
      rw [hd]
      by_cases hlen : ('g' :: 'i' :: 't' :: '+' :: rest : List Char).length > 256
      · rw [if_pos hlen]
      · rw [if_neg hlen]
        rfl
    have hne : s ≠ "" := by
      intro he
      rw [he] at hd
      simp at hd
    simp [getInstallPackage, hsv, bne_iff_ne, hne]

/-- C7 witness: the spec's scenario-C specifier resolves to `my-pkg` and is
installed verbatim. -/
theorem gitResolverAmended_witness :
    (jsStartsWith "git+https://example.com/x/my-pkg.git#v1.2.3" "git+" = true ∧
     containsSub ".tgz".data "git+https://example.com/x/my-pkg.git#v1.2.3".data = false ∧
     gitMatch "git+https://example.com/x/my-pkg.git#v1.2.3" = some "my-pkg") ∧
    getPackageName .readFail "git+https://example.com/x/my-pkg.git#v1.2.3" =
      .resolvedName "my-pkg" ∧
    getInstallPackage (some "git+https://example.com/x/my-pkg.git#v1.2.3") =
      "git+https://example.com/x/my-pkg.git#v1.2.3" :=
  ⟨⟨by decide, by decide, by decide⟩,
    (gitResolverAmended "git+https://example.com/x/my-pkg.git#v1.2.3" "my-pkg" .readFail
      (by decide) (by decide) (by decide)).1,
    (gitResolverAmended "git+https://example.com/x/my-pkg.git#v1.2.3" "my-pkg" .readFail
      (by decide) (by decide) (by decide)).2⟩

end CreateDiviExtension
